import Mathlib

/-!
# Verification of the `juice` battery-history core

A shallow embedding, in Lean 4, of the sampling-and-persistence core of the
`juice` repository (Rust): the SQLite-backed time-series store (`src/db.rs`),
the battery status codec (`src/battery.rs`), the CSV exporter
(`src/export.rs`), the date-bound parser (`src/utils.rs`), and the sampling
daemon loop (`src/daemon.rs`).

Modelling conventions:
* SQLite is modelled as an in-memory `Database` state: a list of rows in
  insertion order with store-assigned ids, a schema flag set by
  `init_scheme`, and a `fault` flag standing for a genuine storage-layer
  failure (disk I/O error and the like).  Fallible calls return
  `Except SqlError _`; `rusqlite`'s `query_row` returns
  `Err(QueryReturnedNoRows)` on an empty result, which `.ok()` collapses to
  `none` together with every other error, exactly as in the source.
* `ORDER BY timestamp ASC` is modelled as a merge sort of the matching rows
  by the key `(timestamp, id)`: SQLite scans `idx_readings_timestamp`, whose
  entries are ordered by `(timestamp, rowid)`, so rows with equal timestamps
  come back in rowid (insertion) order.
* Rust `i64` timestamps are embedded as `Int`; `i64::MIN` / `i64::MAX`
  (the `unwrap_or` defaults in `get_readings`) appear explicitly, and no
  arithmetic in the modelled code can overflow.
* Rust `f32` sensor values are embedded as `ℚ`.  The `{:.2}` format is
  embedded as rounding to the nearest hundredth (`fmtFixed2`); the binary
  tie-breaking of genuine `f32` formatting differs only on exact half-centis,
  which no claim depends on.
* `chrono`'s `Local` timestamp rendering reads the host timezone database,
  so `format_timestamp` enters the model as an explicit string-valued
  parameter of `write_csv`.
* The daemon loop does blocking I/O (sensor reads, sleeps); it is embedded
  as the trace of events one run produces, with the wall clock as an
  explicit function from iteration number to seconds and the Ctrl-C flag as
  the number of iterations for which `running.load()` reads `true`.
-/

/-! ## Battery status codec (`src/battery.rs`) -/

/-- `enum BatteryStatus` from `src/battery.rs`. -/
inductive BatteryStatus where
  | Charging
  | Discharging
  | Full
  | NotCharging
  | Unknown
deriving DecidableEq, Repr

/-- `impl fmt::Display for BatteryStatus` from `src/battery.rs`. -/
def BatteryStatus.display : BatteryStatus → String
  | .Charging => "Charging"
  | .Discharging => "Discharging"
  | .Full => "Full"
  | .NotCharging => "Not charging"
  | .Unknown => "Unknown"

/-- `impl FromStr for BatteryStatus` from `src/battery.rs`: the error type is
`()` and every arm returns `Ok`, the wildcard arm producing `Unknown`. -/
def BatteryStatus.fromStr (s : String) : Except Unit BatteryStatus :=
  if s = "Charging" then .ok .Charging
  else if s = "Discharging" then .ok .Discharging
  else if s = "Full" then .ok .Full
  else if s = "Not charging" then .ok .NotCharging
  else .ok .Unknown

instance exceptDecEq {ε α : Type} [DecidableEq ε] [DecidableEq α] :
    DecidableEq (Except ε α) := fun x y =>
  match x, y with
  | .ok a, .ok b =>
      if h : a = b then .isTrue (by rw [h])
      else .isFalse (fun c => h (by cases c; rfl))
  | .error a, .error b =>
      if h : a = b then .isTrue (by rw [h])
      else .isFalse (fun c => h (by cases c; rfl))
  | .ok _, .error _ => .isFalse (fun c => Except.noConfusion c)
  | .error _, .ok _ => .isFalse (fun c => Except.noConfusion c)

/-! ## The time-series store (`src/db.rs`) -/

/-- One persisted row of the `readings` table, with its store-assigned
`INTEGER PRIMARY KEY AUTOINCREMENT` id.  `status` is stored as text. -/
structure Row where
  id : Nat
  timestamp : Int
  battery : String
  status : String
  capacity : Option Nat
  power_now : Option ℚ
  energy_now : Option ℚ
deriving DecidableEq, Repr

/-- `struct Reading` from `src/db.rs` (the decoded query result). -/
structure Reading where
  battery : String
  timestamp : Int
  status : BatteryStatus
  capacity : Option Nat
  power_now : Option ℚ
  energy_now : Option ℚ
deriving DecidableEq, Repr

/-- The state behind a `rusqlite::Connection` holding the `readings` table.
`schemaInit` records whether `init_scheme`'s `CREATE TABLE IF NOT EXISTS` has
run; `nextId` is the autoincrement counter; `fault` models a genuine
storage-layer failure affecting the connection. -/
structure Database where
  schemaInit : Bool
  nextId : Nat
  rows : List Row
  fault : Bool
deriving DecidableEq, Repr

/-- Errors of the modelled SQL layer: `rusqlite::Error::QueryReturnedNoRows`
versus every other (genuine) storage failure. -/
inductive SqlError where
  | queryReturnedNoRows
  | storageFailure
deriving DecidableEq, Repr

/-- `Database::open` on a fresh backing file: no table yet, autoincrement
starts at 1, no fault. -/
def Database.openEmpty : Database :=
  { schemaInit := false, nextId := 1, rows := [], fault := false }

/-- `Database::init_scheme`: `CREATE TABLE IF NOT EXISTS readings ...` plus
two `CREATE INDEX IF NOT EXISTS`.  On an already-initialized store every
statement is a no-op; a faulted connection reports the failure. -/
def Database.init_scheme (db : Database) : Except SqlError Database :=
  if db.fault then .error .storageFailure
  else .ok { db with schemaInit := true }

/-- `Database::insert_reading`: appends one row with the next autoincrement
id.  Inserting into a missing table (schema never initialized) or through a
faulted connection is a storage error. -/
def Database.insert_reading (db : Database) (battery : String) (timestamp : Int)
    (status : String) (capacity : Option Nat)
    (power_now energy_now : Option ℚ) : Except SqlError Database :=
  if db.fault ∨ db.schemaInit = false then .error .storageFailure
  else .ok { db with
    nextId := db.nextId + 1,
    rows := db.rows ++
      [{ id := db.nextId, timestamp := timestamp, battery := battery,
         status := status, capacity := capacity,
         power_now := power_now, energy_now := energy_now }] }

/-- `Database::count_readings`: `SELECT COUNT(*) FROM readings`. -/
def Database.count_readings (db : Database) : Except SqlError Int :=
  if db.fault ∨ db.schemaInit = false then .error .storageFailure
  else .ok db.rows.length

/-- The `query_row` behind `Database::first_timestamp`:
`SELECT timestamp FROM readings ORDER BY timestamp ASC LIMIT 1`, which is the
minimum stored timestamp; `rusqlite` reports an empty result as
`Err(QueryReturnedNoRows)`. -/
def Database.first_timestamp_q (db : Database) : Except SqlError Int :=
  if db.fault ∨ db.schemaInit = false then .error .storageFailure
  else match (db.rows.map (fun r => r.timestamp)).min? with
    | some t => .ok t
    | none => .error .queryReturnedNoRows

/-- `Database::first_timestamp`: the source applies `.ok()` to the
`query_row` result, collapsing every error — `QueryReturnedNoRows` and
genuine storage failures alike — to `None`. -/
def Database.first_timestamp (db : Database) : Option Int :=
  db.first_timestamp_q.toOption

/-- The `query_row` behind `Database::last_timestamp`:
`SELECT timestamp FROM readings ORDER BY timestamp DESC LIMIT 1`. -/
def Database.last_timestamp_q (db : Database) : Except SqlError Int :=
  if db.fault ∨ db.schemaInit = false then .error .storageFailure
  else match (db.rows.map (fun r => r.timestamp)).max? with
    | some t => .ok t
    | none => .error .queryReturnedNoRows

/-- `Database::last_timestamp`: `.ok()` applied to the `query_row` result,
exactly as `first_timestamp`. -/
def Database.last_timestamp (db : Database) : Option Int :=
  db.last_timestamp_q.toOption

/-- `i64::MIN`, the `unwrap_or` default for an absent `from` bound. -/
def i64Min : Int := -(2 ^ 63)

/-- `i64::MAX`, the `unwrap_or` default for an absent `to` bound. -/
def i64Max : Int := 2 ^ 63 - 1

/-- The scan order of `ORDER BY timestamp ASC` over
`idx_readings_timestamp`: index entries are ordered by `(timestamp, rowid)`,
so the comparison key is the timestamp with the store-assigned id breaking
ties. -/
def rowLe (a b : Row) : Bool :=
  decide (a.timestamp < b.timestamp ∨ (a.timestamp = b.timestamp ∧ a.id ≤ b.id))

/-- The row decoder inside `Database::get_readings`'s `query_map` closure:
`status_str.parse().unwrap_or(BatteryStatus::Unknown)` for the status, the
remaining columns copied through. -/
def rowToReading (r : Row) : Reading :=
  { battery := r.battery, timestamp := r.timestamp,
    status := match BatteryStatus.fromStr r.status with
      | .ok st => st
      | .error _ => .Unknown,
    capacity := r.capacity, power_now := r.power_now,
    energy_now := r.energy_now }

/-- `Database::get_readings`: bounds default to `i64::MIN` / `i64::MAX`, the
`WHERE` clause keeps `start <= timestamp <= end` (both inclusive), and
`ORDER BY timestamp ASC` returns the matching rows in `(timestamp, rowid)`
scan order, decoded by `rowToReading`.  An empty match is `Ok` of the empty
vector. -/
def Database.get_readings (db : Database) (fromB toB : Option Int) :
    Except SqlError (List Reading) :=
  if db.fault ∨ db.schemaInit = false then .error .storageFailure
  else
    let start := fromB.getD i64Min
    let stop := toB.getD i64Max
    let matching := db.rows.filter
      (fun r => decide (start ≤ r.timestamp ∧ r.timestamp ≤ stop))
    .ok ((matching.mergeSort rowLe).map rowToReading)

/-! ### Sequences of inserts -/

/-- The argument tuple of one `insert_reading` call. -/
structure InsertArgs where
  battery : String
  timestamp : Int
  status : String
  capacity : Option Nat
  power_now : Option ℚ
  energy_now : Option ℚ
deriving DecidableEq, Repr

/-- A sequence of `insert_reading` calls, stopping at the first error. -/
def Database.insertAll (db : Database) : List InsertArgs → Except SqlError Database
  | [] => .ok db
  | a :: rest =>
    match db.insert_reading a.battery a.timestamp a.status a.capacity
        a.power_now a.energy_now with
    | .error e => .error e
    | .ok db' => db'.insertAll rest

/-- The row a single insert appends when the autoincrement counter is `n`. -/
def argRow (n : Nat) (a : InsertArgs) : Row :=
  { id := n, timestamp := a.timestamp, battery := a.battery,
    status := a.status, capacity := a.capacity,
    power_now := a.power_now, energy_now := a.energy_now }

/-- The rows appended by a sequence of inserts starting at counter `n`. -/
def rowsOf (n : Nat) : List InsertArgs → List Row
  | [] => []
  | a :: rest => argRow n a :: rowsOf (n + 1) rest

/-- The `Reading` that querying back one inserted tuple yields (ids are not
part of a `Reading`). -/
def argReading (a : InsertArgs) : Reading :=
  rowToReading (argRow 0 a)

/-- The store state right after `open` + `init_scheme` on a fresh file. -/
def freshDb : Database :=
  { schemaInit := true, nextId := 1, rows := [], fault := false }

/-- The store state a successful sequence of inserts leaves behind. -/
def afterInserts (db : Database) (args : List InsertArgs) : Database :=
  { db with
      nextId := db.nextId + args.length,
      rows := db.rows ++ rowsOf db.nextId args }

/-! ## The daemon loop (`src/daemon.rs`) -/

/-- Observable events of one daemon run: an `insert_reading` of one
battery's snapshot (carrying the timestamp the loop captured for the tick),
and a `thread::sleep` of the configured interval. -/
inductive Event where
  | sample (battery : String) (timestamp : Int)
  | sleep (secs : Nat)
deriving DecidableEq, Repr

/-- One iteration of the `while running` loop body: one `unix_timestamp()`
capture shared by every battery's insert, then the sleep. -/
def tickEvents (batteries : List String) (interval : Nat) (t : Int) : List Event :=
  batteries.map (fun b => Event.sample b t) ++ [Event.sleep interval]

/-- The trace of the `while running` loop: `clock k` is the value
`unix_timestamp()` returns in iteration `k`, and the loop body runs for the
iterations on which `running.load()` still reads `true`. -/
def runTrace (batteries : List String) (clock : Nat → Int) (interval : Nat) :
    Nat → Nat → List Event
  | _, 0 => []
  | k, Nat.succ m =>
      tickEvents batteries interval (clock k) ++
        runTrace batteries clock interval (k + 1) m

/-- `run` from `src/daemon.rs`, as the trace it produces: an empty battery
list fails immediately with "No battery found"; otherwise the loop body
(sample every battery with one shared timestamp, then sleep one interval)
repeats until the cancellation flag is observed at the top of the loop,
i.e. for `cancelAfter` iterations. -/
def run (batteries : List String) (clock : Nat → Int) (interval : Nat)
    (cancelAfter : Nat) : Except String (List Event) :=
  if batteries.isEmpty then .error "No battery found"
  else .ok (runTrace batteries clock interval 0 cancelAfter)

/-- The claim's reading of the schedule: no sample happens before a full
interval has elapsed, i.e. every sample event is preceded by some sleep
event. -/
def firstTickDelayed (tr : List Event) : Prop :=
  ∀ (i : Nat) (b : String) (t : Int), tr[i]? = some (Event.sample b t) →
    ∃ j : Nat, j < i ∧ ∃ s, tr[j]? = some (Event.sleep s)

/-! ## The CSV exporter (`src/export.rs`) -/

/-- The header line `write_csv` emits first. -/
def csvHeader : String :=
  "timestamp,datetime,battery,status,capacity,power_now,energy_now"

/-- Rust's `format!("{:.2}", v)` on the embedded value: the value rounded to
the nearest hundredth, rendered with exactly two digits after the point.
`Int.fdiv (200 * num + den) (2 * den)` is `⌊100 q + 1/2⌋` computed without
rational arithmetic. -/
def fmtFixed2 (q : ℚ) : String :=
  let c : Int := Int.fdiv (200 * q.num + (q.den : Int)) (2 * (q.den : Int))
  let sgn := if c < 0 then "-" else ""
  let m := c.natAbs
  sgn ++ toString (m / 100) ++ "." ++
    (if m % 100 < 10 then "0" ++ toString (m % 100) else toString (m % 100))

/-- `r.capacity.map(|v| v.to_string()).unwrap_or_default()`. -/
def fmtOptNat : Option Nat → String
  | none => ""
  | some v => toString v

/-- `r.power_now.map(|v| format!("{:.2}", v)).unwrap_or_default()` (same for
`energy_now`). -/
def fmtOptRat : Option ℚ → String
  | none => ""
  | some v => fmtFixed2 v

/-- One data line of `write_csv`: the `writeln!` format string
`"{},{},{},{},{},{},{},"` — seven comma-separated fields and a trailing
comma.  `fmtTs` stands for `format_timestamp` (chrono `Local` rendering,
which depends on the host timezone database). -/
def csvRow (fmtTs : Int → String) (r : Reading) : String :=
  toString r.timestamp ++ "," ++ fmtTs r.timestamp ++ "," ++ r.battery ++ ","
    ++ r.status.display ++ "," ++ fmtOptNat r.capacity ++ ","
    ++ fmtOptRat r.power_now ++ "," ++ fmtOptRat r.energy_now ++ ","

/-- `write_csv` from `src/export.rs`, as the list of lines it writes (each
`writeln!` emits one newline-terminated line): the header, then one data
line per `Reading` in the order given. -/
def write_csv (fmtTs : Int → String) (readings : List Reading) : List String :=
  csvHeader :: readings.map (csvRow fmtTs)

/-- Spec-side description of a data row, following the spec's words: the
listed fields joined by commas with a trailing comma after the last field.
Each field is a string; the joiner appends one comma after every field. -/
def joinComma (fields : List String) : String :=
  fields.foldr (fun fld acc => fld ++ "," ++ acc) ""

/-- Spec-side rendering of the claim's row format, reading "each numeric
field is rendered with fixed 2-decimal precision when present" as covering
the three optional numeric fields — so `capacity` too would carry two
decimals. -/
def specCsvRowClaimed (fmtTs : Int → String) (r : Reading) : String :=
  joinComma [toString r.timestamp, fmtTs r.timestamp, r.battery,
    r.status.display,
    (match r.capacity with
      | none => ""
      | some v => toString v ++ ".00"),
    (match r.power_now with
      | none => ""
      | some v => fmtFixed2 v),
    (match r.energy_now with
      | none => ""
      | some v => fmtFixed2 v)]

/-- Spec-side rendering of the amended row format: `capacity` is a plain
integer; only the two float fields carry fixed 2-decimal precision; absent
fields are empty; trailing comma after the last field. -/
def specCsvRowAmended (fmtTs : Int → String) (r : Reading) : String :=
  joinComma [toString r.timestamp, fmtTs r.timestamp, r.battery,
    r.status.display,
    (match r.capacity with
      | none => ""
      | some v => toString v),
    (match r.power_now with
      | none => ""
      | some v => fmtFixed2 v),
    (match r.energy_now with
      | none => ""
      | some v => fmtFixed2 v)]

/-! ## Date-bound parsing (`src/utils.rs`) -/

/-- Splitting a character list at `'-'`, the shape `%Y-%m-%d` requires. -/
def splitOnDash : List Char → List (List Char)
  | [] => [[]]
  | c :: rest =>
    if c = '-' then [] :: splitOnDash rest
    else match splitOnDash rest with
      | [] => [[c]]
      | p :: ps => (c :: p) :: ps

/-- A non-empty all-digit numeric field, as chrono's numeric items parse it. -/
def digitsToNat (cs : List Char) : Option Nat :=
  if cs ≠ [] ∧ cs.all Char.isDigit then
    some (cs.foldl (fun acc c => 10 * acc + (c.toNat - 48)) 0)
  else none

/-- The `(year, month, day)` components of a `YYYY-MM-DD` string, before
calendar validation. -/
def splitDate (s : String) : Option (Nat × Nat × Nat) :=
  match splitOnDash s.data with
  | [ys, ms, ds] =>
    match digitsToNat ys, digitsToNat ms, digitsToNat ds with
    | some y, some m, some d => some (y, m, d)
    | _, _, _ => none
  | _ => none

/-- Gregorian leap years, as chrono validates `NaiveDate`. -/
def isLeap (y : Nat) : Bool :=
  y % 4 = 0 ∧ (y % 100 ≠ 0 ∨ y % 400 = 0)

/-- Day count of a month, for chrono's calendar validation. -/
def daysInMonth (y m : Nat) : Nat :=
  if m = 2 then (if isLeap y then 29 else 28)
  else if m = 4 ∨ m = 6 ∨ m = 9 ∨ m = 11 then 30
  else 31

/-- Calendar validity of `(y, m, d)`, as `NaiveDate::parse_from_str`
enforces. -/
def validDate (y m d : Nat) : Bool :=
  decide (1 ≤ m ∧ m ≤ 12 ∧ 1 ≤ d ∧ d ≤ daysInMonth y m)

/-- Days from 1970-01-01 to proleptic-Gregorian `(y, m, d)` (the civil-day
count underlying `NaiveDate`'s epoch arithmetic). -/
def daysFromCivil (y m d : Nat) : Int :=
  let yy : Int := if m ≤ 2 then (y : Int) - 1 else (y : Int)
  let era : Int := yy.fdiv 400
  let yoe : Int := yy - era * 400
  let mp : Int := ((m : Int) + 9) % 12
  let doy : Int := (153 * mp + 2).fdiv 5 + (d : Int) - 1
  let doe : Int := yoe * 365 + yoe.fdiv 4 - yoe.fdiv 100 + doy
  era * 146097 + doe - 719468

/-- `parse_date` from `src/utils.rs`: parse `%Y-%m-%d`, take midnight of
that date, and interpret it via `.and_utc().timestamp()` — i.e. as
00:00:00 *UTC* of that civil date, `86400` seconds per day. -/
def parse_date (s : String) : Option Int :=
  match splitDate s with
  | some (y, m, d) =>
    if validDate y m d then some (86400 * daysFromCivil y m d) else none
  | none => none

/-- Spec-side definition, following the spec's words: the second-granularity
timestamp of local-midnight (00:00:00 in local time) of a civil date, in a
timezone whose UTC offset is `offsetSecs` (local = UTC + offset, so local
midnight happens at UTC instant `utc-midnight − offset`). -/
def specLocalMidnightTs (offsetSecs : Int) (y m d : Nat) : Int :=
  86400 * daysFromCivil y m d - offsetSecs

/-- Modelled from the spec: the Range Exporter's bound resolution (the
`export` subcommand glue is not under `src/`, only `parse_date` and
`write_csv` are).  "Resolves `from`/`to` calendar dates (if given) ...;
absent dates leave the corresponding bound unconstrained (delegates to
Store's default)": an absent or unparseable date yields an absent bound. -/
def resolveBound (arg : Option String) : Option Int :=
  arg.bind parse_date

/-! ## Concrete sample states used by witnesses -/

/-- A concrete stored row with everything readable. -/
def sampleRow (n : Nat) (t : Int) (b : String) : Row :=
  { id := n, timestamp := t, battery := b, status := "Discharging",
    capacity := some 85, power_now := none, energy_now := none }

/-- A store holding readings at timestamps `{100, 200, 300}` (the spec's
range-inclusivity example). -/
def sampleDb : Database :=
  { schemaInit := true, nextId := 4,
    rows := [sampleRow 1 100 "BAT0", sampleRow 2 200 "BAT0",
             sampleRow 3 300 "BAT0"],
    fault := false }

/-- A non-empty store whose connection then hits a genuine storage-layer
failure. -/
def faultyDb : Database :=
  { schemaInit := true, nextId := 2, rows := [sampleRow 1 100 "BAT0"],
    fault := true }

/-- A concrete insert sequence with a duplicated timestamp (200 appears
first and last). -/
def sampleArgs : List InsertArgs :=
  [{ battery := "BAT0", timestamp := 200, status := "Discharging",
     capacity := some 85, power_now := none, energy_now := none },
   { battery := "BAT1", timestamp := 100, status := "Charging",
     capacity := none, power_now := none, energy_now := none },
   { battery := "BAT0", timestamp := 200, status := "Full",
     capacity := none, power_now := none, energy_now := none }]

/-- The store `sampleArgs` produces on a fresh database. -/
def sampleArgsDb : Database :=
  { schemaInit := true, nextId := 4, rows := rowsOf 1 sampleArgs,
    fault := false }

instance rowIdLtAntisymm : IsAntisymm Row (fun a b => a.id < b.id) :=
  ⟨fun _ _ h1 h2 => absurd h1 (Nat.lt_asymm h2)⟩

/-! # Theorems -/

/-! ## Status codec (C8, C10) -/

/-- C8: decoding a stored status string is total and never fails: for every
input string `from_str` returns `Ok` of some status, and any text that is
not one of the four recognized status names decodes to `Unknown` (the
decoder `get_readings` applies to the stored `status` column). -/
theorem fromStr_total (s : String) :
    (∃ st, BatteryStatus.fromStr s = .ok st) ∧
    (s ≠ "Charging" → s ≠ "Discharging" → s ≠ "Full" → s ≠ "Not charging" →
      BatteryStatus.fromStr s = .ok .Unknown) := by
  unfold BatteryStatus.fromStr
  constructor
  · split
    · exact ⟨_, rfl⟩
    · split
      · exact ⟨_, rfl⟩
      · split
        · exact ⟨_, rfl⟩
        · split
          · exact ⟨_, rfl⟩
          · exact ⟨_, rfl⟩
  · intro h1 h2 h3 h4
    simp [h1, h2, h3, h4]

/-- Witness for C8 at the unrecognized input `"SomeFutureStatus"`. -/
theorem fromStr_total_witness :
    (∃ st, BatteryStatus.fromStr "SomeFutureStatus" = .ok st) ∧
    BatteryStatus.fromStr "SomeFutureStatus" = .ok .Unknown :=
  ⟨(fromStr_total "SomeFutureStatus").1,
   (fromStr_total "SomeFutureStatus").2 (by decide) (by decide) (by decide)
     (by decide)⟩

/-- C10: rendering a `BatteryStatus` through `Display` and parsing the text
back through `from_str` is the identity on all five variants, including
`NotCharging` whose text form is `"Not charging"`. -/
theorem status_display_roundtrip :
    ∀ st : BatteryStatus, BatteryStatus.fromStr st.display = .ok st := by
  intro st
  cases st <;> rfl

/-! ## Schema initialization (C6) -/

/-- C6: `init_scheme` is idempotent: on a store whose connection is not
faulted it succeeds, re-invoking it on the resulting (initialized) store
succeeds and changes nothing, and on an already-initialized store the call
is a no-op. -/
theorem init_scheme_idempotent (db : Database) (hf : db.fault = false) :
    (∃ db', db.init_scheme = .ok db' ∧ db'.init_scheme = .ok db' ∧
      db'.schemaInit = true ∧ db'.rows = db.rows ∧ db'.nextId = db.nextId) ∧
    (db.schemaInit = true → db.init_scheme = .ok db) := by
  constructor
  · refine ⟨{ db with schemaInit := true }, ?_, ?_, rfl, rfl, rfl⟩
    · simp [Database.init_scheme, hf]
    · simp [Database.init_scheme, hf]
  · intro hinit
    cases db
    simp_all [Database.init_scheme]

/-- Witness for C6 on the freshly opened store. -/
theorem init_scheme_idempotent_witness :
    (∃ db', Database.openEmpty.init_scheme = .ok db' ∧
      db'.init_scheme = .ok db' ∧ db'.schemaInit = true ∧
      db'.rows = Database.openEmpty.rows ∧
      db'.nextId = Database.openEmpty.nextId) ∧
    (Database.openEmpty.schemaInit = true →
      Database.openEmpty.init_scheme = .ok Database.openEmpty) :=
  init_scheme_idempotent Database.openEmpty (by decide)

/-! ## Date-bound resolution (C5) -/

/-- C5 counterexample: `parse_date` maps `"1970-01-02"` to `86400`, which is
midnight *UTC* of that date; in a timezone one hour east of UTC (offset
`3600`), local midnight of 1970-01-02 is the timestamp `82800`, so the
code's result is not the local-midnight timestamp. -/
theorem parse_date_not_local_midnight :
    parse_date "1970-01-02" = some 86400 ∧
    specLocalMidnightTs 3600 1970 1 2 = 82800 ∧
    parse_date "1970-01-02" ≠ some (specLocalMidnightTs 3600 1970 1 2) := by
  refine ⟨by decide, by decide, by decide⟩

/-- C5 amended: for every well-formed `YYYY-MM-DD` date string, `parse_date`
resolves it to the second-granularity timestamp of midnight *UTC* of that
date (equivalently, local-midnight only for a zone of UTC offset zero); an
absent date resolves to an absent bound, leaving the query unconstrained. -/
theorem parse_date_utc_midnight (s : String) (y m d : Nat)
    (hsplit : splitDate s = some (y, m, d))
    (hvalid : validDate y m d = true) :
    parse_date s = some (specLocalMidnightTs 0 y m d) ∧
    resolveBound (some s) = some (specLocalMidnightTs 0 y m d) ∧
    resolveBound none = none := by
  have hp : parse_date s = some (86400 * daysFromCivil y m d) := by
    simp [parse_date, hsplit, hvalid]
  refine ⟨?_, ?_, rfl⟩
  · simp [hp, specLocalMidnightTs]
  · simp [resolveBound, hp, specLocalMidnightTs]

/-- Witness for C5 (amended) at `"1970-01-02"`. -/
theorem parse_date_utc_midnight_witness :
    parse_date "1970-01-02" = some (specLocalMidnightTs 0 1970 1 2) ∧
    resolveBound (some "1970-01-02") = some (specLocalMidnightTs 0 1970 1 2) ∧
    resolveBound none = none :=
  parse_date_utc_midnight "1970-01-02" 1970 1 2 (by decide) (by decide)

/-! ## The daemon schedule (C4, C9) -/

theorem runTrace_eq (bs : List String) (clock : Nat → Int) (iv : Nat) :
    ∀ (n k : Nat), runTrace bs clock iv k n =
      ((List.range n).map (fun j => tickEvents bs iv (clock (k + j)))).flatten := by
  intro n
  induction n with
  | zero => intro k; rfl
  | succ m ih =>
    intro k
    simp only [runTrace, List.range_succ_eq_map, List.map_cons, List.map_map,
      List.flatten_cons, Nat.add_zero]
    rw [ih (k + 1)]
    congr 1
    congr 1
    apply List.map_congr_left
    intro j _
    simp only [Function.comp]
    congr 2
    omega

theorem run_ok (bs : List String) (clock : Nat → Int) (iv n : Nat)
    (hbs : bs ≠ []) :
    run bs clock iv n = .ok (runTrace bs clock iv 0 n) := by
  have he : bs.isEmpty = false := by
    cases bs
    · exact absurd rfl hbs
    · rfl
  simp [run, he]

/-- C4 counterexample: with one battery and a run cancelled after a single
iteration, the very first event of the trace is already a sample — the loop
samples immediately at `t = 0` and only then sleeps, so the first tick does
*not* wait one full interval. -/
theorem run_samples_at_start :
    run ["BAT0"] (fun _ => 0) 30 1 =
      .ok [Event.sample "BAT0" 0, Event.sleep 30] ∧
    ¬ firstTickDelayed [Event.sample "BAT0" 0, Event.sleep 30] := by
  constructor
  · decide
  · intro h
    obtain ⟨j, hj, -⟩ := h 0 "BAT0" 0 rfl
    omega

/-- C4 amended: with a non-empty battery list, the run's first sampling tick
happens immediately when the loop starts (before any interval has elapsed),
and the trace is exactly `cancelAfter` repetitions of "sample every battery,
then sleep one full interval", ending when cancellation is observed at the
top of the loop. -/
theorem run_schedule_amended (bs : List String) (clock : Nat → Int)
    (iv n : Nat) (hbs : bs ≠ []) :
    ∃ tr, run bs clock iv n = .ok tr ∧
      tr = ((List.range n).map (fun k => tickEvents bs iv (clock k))).flatten ∧
      (0 < n → ∃ b, tr.head? = some (Event.sample b (clock 0))) := by
  refine ⟨runTrace bs clock iv 0 n, run_ok bs clock iv n hbs, ?_, ?_⟩
  · rw [runTrace_eq]
    simp
  · intro hn
    obtain ⟨m, rfl⟩ : ∃ m, n = m + 1 := ⟨n - 1, by omega⟩
    obtain ⟨b, bs', rfl⟩ : ∃ b bs', bs = b :: bs' := by
      cases bs
      · exact absurd rfl hbs
      · exact ⟨_, _, rfl⟩
    exact ⟨b, rfl⟩

/-- Witness for C4 (amended): one battery, interval 30, cancelled after two
iterations. -/
theorem run_schedule_amended_witness :
    ∃ tr, run ["BAT0"] (fun k => (100 : Int) + k) 30 2 = .ok tr ∧
      tr = ((List.range 2).map (fun k =>
        tickEvents ["BAT0"] 30 ((100 : Int) + k))).flatten ∧
      (0 < 2 → ∃ b, tr.head? = some (Event.sample b 100)) := by
  have h := run_schedule_amended ["BAT0"] (fun k => (100 : Int) + k) 30 2
    (by decide)
  simpa using h

/-- C9: every trace a run with a non-empty battery list produces decomposes
into ticks, each of which inserts one Reading per battery all carrying one
identical timestamp (captured once at the start of the tick) and then sleeps
one interval. -/
theorem tick_timestamp_shared (bs : List String) (clock : Nat → Int)
    (iv n : Nat) (tr : List Event) (hbs : bs ≠ [])
    (h : run bs clock iv n = .ok tr) :
    ∃ tss : List Int, tss.length = n ∧
      tr = (tss.map (fun t =>
        bs.map (fun b => Event.sample b t) ++ [Event.sleep iv])).flatten := by
  rw [run_ok bs clock iv n hbs] at h
  obtain rfl : runTrace bs clock iv 0 n = tr := by
    cases h
    rfl
  refine ⟨(List.range n).map clock, by simp, ?_⟩
  rw [runTrace_eq]
  rw [List.map_map]
  congr 1
  apply List.map_congr_left
  intro j _
  simp [tickEvents, Function.comp]

/-- Witness for C9: two batteries, cancelled after two iterations; the two
samples of each tick share that tick's timestamp. -/
theorem tick_timestamp_shared_witness :
    ∃ tss : List Int, tss.length = 2 ∧
      ([Event.sample "BAT0" 100, Event.sample "BAT1" 100, Event.sleep 60,
        Event.sample "BAT0" 101, Event.sample "BAT1" 101, Event.sleep 60]
        : List Event) =
      (tss.map (fun t =>
        (["BAT0", "BAT1"].map (fun b => Event.sample b t)) ++
          [Event.sleep 60])).flatten :=
  tick_timestamp_shared ["BAT0", "BAT1"] (fun k => (100 : Int) + k) 60 2 _
    (by decide) (by decide)

/-! ## First / last timestamp (C3) -/

/-- C3 counterexample: on a *non-empty* store whose connection hits a
genuine storage-layer failure, the underlying query fails with a storage
error, yet `first_timestamp` / `last_timestamp` report `none` — `.ok()`
absorbs the failure into "absent" instead of propagating it, so "absent
exactly when the store is empty" is false. -/
theorem first_last_timestamp_fault_absorbed :
    faultyDb.first_timestamp_q = .error .storageFailure ∧
    faultyDb.last_timestamp_q = .error .storageFailure ∧
    faultyDb.first_timestamp = none ∧
    faultyDb.last_timestamp = none ∧
    faultyDb.rows ≠ [] := by
  refine ⟨by decide, by decide, by decide, by decide, by decide⟩

/-- C3 amended: on an initialized store whose connection does not fail,
`first_timestamp` / `last_timestamp` return the minimum / maximum stored
timestamp and are absent (not an error) exactly when the store is empty;
a genuine storage-layer failure, however, is also reported as absent — the
source's `.ok()` swallows it rather than propagating it to the caller. -/
theorem first_last_timestamp_amended (db : Database)
    (hs : db.schemaInit = true) :
    (db.fault = false →
      ((db.first_timestamp = none ↔ db.rows = []) ∧
       (db.last_timestamp = none ↔ db.rows = []) ∧
       (∀ t, db.first_timestamp = some t →
          (∃ r ∈ db.rows, r.timestamp = t) ∧
          ∀ r ∈ db.rows, t ≤ r.timestamp) ∧
       (∀ t, db.last_timestamp = some t →
          (∃ r ∈ db.rows, r.timestamp = t) ∧
          ∀ r ∈ db.rows, r.timestamp ≤ t))) ∧
    (db.fault = true →
      db.first_timestamp = none ∧ db.last_timestamp = none) := by
  constructor
  · intro hf
    have hfq : db.first_timestamp_q =
        match (db.rows.map (fun r => r.timestamp)).min? with
        | some t => .ok t
        | none => .error .queryReturnedNoRows := by
      simp [Database.first_timestamp_q, hf, hs]
    have hlq : db.last_timestamp_q =
        match (db.rows.map (fun r => r.timestamp)).max? with
        | some t => .ok t
        | none => .error .queryReturnedNoRows := by
      simp [Database.last_timestamp_q, hf, hs]
    refine ⟨?_, ?_, ?_, ?_⟩
    · rw [Database.first_timestamp, hfq]
      cases hmin : (db.rows.map (fun r => r.timestamp)).min? with
      | none =>
        simp only [List.min?_eq_none_iff, List.map_eq_nil_iff] at hmin
        simp [Except.toOption, hmin]
      | some t =>
        have ht := List.min?_mem (fun a b => min_choice a b) hmin
        have hne : db.rows ≠ [] := by
          intro hnil
          rw [hnil] at ht
          simp at ht
        simp [Except.toOption, hne]
    · rw [Database.last_timestamp, hlq]
      cases hmax : (db.rows.map (fun r => r.timestamp)).max? with
      | none =>
        simp only [List.max?_eq_none_iff, List.map_eq_nil_iff] at hmax
        simp [Except.toOption, hmax]
      | some t =>
        have ht := List.max?_mem (fun a b => max_choice a b) hmax
        have hne : db.rows ≠ [] := by
          intro hnil
          rw [hnil] at ht
          simp at ht
        simp [Except.toOption, hne]
    · intro t h
      rw [Database.first_timestamp, hfq] at h
      cases hmin : (db.rows.map (fun r => r.timestamp)).min? with
      | none => rw [hmin] at h; simp [Except.toOption] at h
      | some u =>
        rw [hmin] at h
        simp only [Except.toOption] at h
        cases h
        have ht := List.min?_mem (fun a b => min_choice a b) hmin
        obtain ⟨r, hr, hrt⟩ := List.mem_map.mp ht
        refine ⟨⟨r, hr, hrt⟩, ?_⟩
        intro r' hr'
        have hle : ∀ b ∈ db.rows.map (fun r => r.timestamp), t ≤ b :=
          (List.le_min?_iff (fun a b c => le_min_iff) hmin).mp (le_refl t)
        exact hle r'.timestamp (List.mem_map_of_mem _ hr')
    · intro t h
      rw [Database.last_timestamp, hlq] at h
      cases hmax : (db.rows.map (fun r => r.timestamp)).max? with
      | none => rw [hmax] at h; simp [Except.toOption] at h
      | some u =>
        rw [hmax] at h
        simp only [Except.toOption] at h
        cases h
        have ht := List.max?_mem (fun a b => max_choice a b) hmax
        obtain ⟨r, hr, hrt⟩ := List.mem_map.mp ht
        refine ⟨⟨r, hr, hrt⟩, ?_⟩
        intro r' hr'
        have hle : ∀ b ∈ db.rows.map (fun r => r.timestamp), b ≤ t :=
          (List.max?_le_iff (fun a b c => max_le_iff) hmax).mp (le_refl t)
        exact hle r'.timestamp (List.mem_map_of_mem _ hr')
  · intro hf
    constructor
    · simp [Database.first_timestamp, Database.first_timestamp_q, hf,
        Except.toOption]
    · simp [Database.last_timestamp, Database.last_timestamp_q, hf,
        Except.toOption]

/-- Witness for C3 (amended) on the `{100, 200, 300}` store. -/
theorem first_last_timestamp_amended_witness :
    (sampleDb.fault = false →
      ((sampleDb.first_timestamp = none ↔ sampleDb.rows = []) ∧
       (sampleDb.last_timestamp = none ↔ sampleDb.rows = []) ∧
       (∀ t, sampleDb.first_timestamp = some t →
          (∃ r ∈ sampleDb.rows, r.timestamp = t) ∧
          ∀ r ∈ sampleDb.rows, t ≤ r.timestamp) ∧
       (∀ t, sampleDb.last_timestamp = some t →
          (∃ r ∈ sampleDb.rows, r.timestamp = t) ∧
          ∀ r ∈ sampleDb.rows, r.timestamp ≤ t))) ∧
    (sampleDb.fault = true →
      sampleDb.first_timestamp = none ∧ sampleDb.last_timestamp = none) :=
  first_last_timestamp_amended sampleDb (by decide)

/-! ## CSV export (C7) -/

theorem csvRow_eq_amended (fmtTs : Int → String) (r : Reading) :
    csvRow fmtTs r = specCsvRowAmended fmtTs r := by
  cases r with
  | mk battery timestamp status capacity power_now energy_now =>
    cases capacity <;> cases power_now <;> cases energy_now <;>
      simp only [csvRow, specCsvRowAmended, joinComma, List.foldr,
        fmtOptNat, fmtOptRat, String.append_empty, String.empty_append,
        String.append_assoc]

/-- C7 counterexample: for a Reading whose `capacity` is present, the
emitted row renders `capacity` as a plain integer (`"85"`), not with fixed
2-decimal precision (`"85.00"`) as the claim's "each numeric field" wording
requires, so the output differs from the claimed format. -/
theorem write_csv_capacity_plain_integer :
    write_csv (fun _ => "dt")
      [{ battery := "BAT0", timestamp := 1000, status := .Discharging,
         capacity := some 85, power_now := none, energy_now := none }] ≠
    [csvHeader,
     specCsvRowClaimed (fun _ => "dt")
       { battery := "BAT0", timestamp := 1000, status := .Discharging,
         capacity := some 85, power_now := none, energy_now := none }] := by
  decide

/-- C7 amended: `write_csv` emits exactly the header line naming the seven
fields, followed by one comma-separated line per Reading in the order given,
each data line being the seven fields joined by commas with a trailing comma
after the last field, where the two float fields are rendered with fixed
2-decimal precision when present and empty when absent, and `capacity` is
rendered as a plain integer when present and empty when absent. -/
theorem write_csv_format (fmtTs : Int → String) (rs : List Reading) :
    write_csv fmtTs rs = csvHeader :: rs.map (specCsvRowAmended fmtTs) ∧
    (write_csv fmtTs rs).length = rs.length + 1 ∧
    (write_csv fmtTs rs).head? = some csvHeader := by
  refine ⟨?_, by simp [write_csv], rfl⟩
  unfold write_csv
  congr 1
  apply List.map_congr_left
  intro r _
  exact csvRow_eq_amended fmtTs r

/-! ## Range queries (C1, C2) -/

theorem rowLe_iff (a b : Row) : rowLe a b = true ↔
    (a.timestamp < b.timestamp ∨
      (a.timestamp = b.timestamp ∧ a.id ≤ b.id)) := by
  simp [rowLe]

theorem rowLe_transitive (a b c : Row) :
    rowLe a b = true → rowLe b c = true → rowLe a c = true := by
  intro hab hbc
  rw [rowLe_iff] at hab hbc ⊢
  omega

theorem rowLe_total_bool (a b : Row) : (rowLe a b || rowLe b a) = true := by
  simp only [Bool.or_eq_true, rowLe_iff]
  omega

theorem get_readings_ok (db : Database) (fromB toB : Option Int)
    (hf : db.fault = false) (hs : db.schemaInit = true) :
    db.get_readings fromB toB = .ok
      (((db.rows.filter (fun r => decide (fromB.getD i64Min ≤ r.timestamp ∧
          r.timestamp ≤ toB.getD i64Max))).mergeSort rowLe).map
        rowToReading) := by
  simp [Database.get_readings, hf, hs]

/-- C1: for every (initialized, unfaulted) store state and optional bounds,
`get_readings` succeeds and returns exactly (as a multiset — C2 settles the
order) the stored readings whose timestamp `t` satisfies `from ≤ t ≤ to`
with both bounds inclusive, an absent `from` defaulting to `i64::MIN` and an
absent `to` to `i64::MAX`; with both bounds absent it returns all rows, and
an empty match yields the empty sequence, not an error. -/
theorem get_readings_range_inclusive (db : Database) (fromB toB : Option Int)
    (hf : db.fault = false) (hs : db.schemaInit = true)
    (hw : ∀ r ∈ db.rows, i64Min ≤ r.timestamp ∧ r.timestamp ≤ i64Max) :
    ∃ rs, db.get_readings fromB toB = .ok rs ∧
      rs.Perm ((db.rows.filter (fun r =>
        decide (fromB.getD i64Min ≤ r.timestamp ∧
          r.timestamp ≤ toB.getD i64Max))).map rowToReading) ∧
      (fromB = none → toB = none → rs.Perm (db.rows.map rowToReading)) ∧
      (db.rows.filter (fun r =>
        decide (fromB.getD i64Min ≤ r.timestamp ∧
          r.timestamp ≤ toB.getD i64Max)) = [] → rs = []) := by
  refine ⟨_, get_readings_ok db fromB toB hf hs, ?_, ?_, ?_⟩
  · exact (List.mergeSort_perm _ rowLe).map rowToReading
  · rintro rfl rfl
    have hfil : db.rows.filter (fun r =>
        decide ((none : Option Int).getD i64Min ≤ r.timestamp ∧
          r.timestamp ≤ (none : Option Int).getD i64Max)) = db.rows := by
      refine List.filter_eq_self.mpr ?_
      intro r hr
      have := hw r hr
      simp only [Option.getD_none]
      exact decide_eq_true (by exact ⟨this.1, this.2⟩)
    refine List.Perm.trans ((List.mergeSort_perm _ rowLe).map rowToReading) ?_
    rw [hfil]
  · intro hnil
    rw [hnil]
    simp

/-- Witness for C1: on the `{100, 200, 300}` store, `queryRange(150, 250)`
(and the other conjuncts, trivially). -/
theorem get_readings_range_inclusive_witness :
    ∃ rs, sampleDb.get_readings (some 150) (some 250) = .ok rs ∧
      rs.Perm ((sampleDb.rows.filter (fun r =>
        decide ((some (150 : Int)).getD i64Min ≤ r.timestamp ∧
          r.timestamp ≤ (some (250 : Int)).getD i64Max))).map rowToReading) ∧
      (some (150 : Int) = none → some (250 : Int) = none →
        rs.Perm (sampleDb.rows.map rowToReading)) ∧
      (sampleDb.rows.filter (fun r =>
        decide ((some (150 : Int)).getD i64Min ≤ r.timestamp ∧
          r.timestamp ≤ (some (250 : Int)).getD i64Max)) = [] → rs = []) :=
  get_readings_range_inclusive sampleDb (some 150) (some 250) (by decide)
    (by decide) (by decide)

theorem insertAll_ok (args : List InsertArgs) : ∀ (db : Database),
    db.fault = false → db.schemaInit = true →
    db.insertAll args = .ok (afterInserts db args) := by
  induction args with
  | nil =>
    intro db hf hs
    simp [Database.insertAll, afterInserts, rowsOf]
  | cons a rest ih =>
    intro db hf hs
    have hstep : db.insertAll (a :: rest) =
        Database.insertAll { db with nextId := db.nextId + 1, rows := db.rows ++ [argRow db.nextId a] } rest := by
      rw [Database.insertAll, Database.insert_reading, if_neg (by simp [hf, hs])]
      rfl
    rw [hstep,
      ih { db with nextId := db.nextId + 1, rows := db.rows ++ [argRow db.nextId a] } hf hs]
    simp [afterInserts, rowsOf, argRow, List.append_assoc]
    omega

theorem rowsOf_mem_le (args : List InsertArgs) : ∀ (n : Nat) (r : Row),
    r ∈ rowsOf n args → n ≤ r.id := by
  induction args with
  | nil =>
    intro n r h
    simp [rowsOf] at h
  | cons a rest ih =>
    intro n r h
    simp only [rowsOf, List.mem_cons] at h
    rcases h with rfl | h
    · simp [argRow]
    · have := ih (n + 1) r h
      omega

theorem rowsOf_pairwise_id (args : List InsertArgs) : ∀ (n : Nat),
    (rowsOf n args).Pairwise (fun a b => a.id < b.id) := by
  induction args with
  | nil =>
    intro n
    simp [rowsOf]
  | cons a rest ih =>
    intro n
    simp only [rowsOf]
    refine List.Pairwise.cons ?_ (ih (n + 1))
    intro b hb
    have := rowsOf_mem_le rest (n + 1) b hb
    simp only [argRow]
    omega

theorem rowToReading_argRow (n : Nat) (a : InsertArgs) :
    rowToReading (argRow n a) = argReading a := rfl

theorem rowsOf_filter_map (args : List InsertArgs) :
    ∀ (n : Nat) (p : Int → Bool),
    ((rowsOf n args).filter (fun r => p r.timestamp)).map rowToReading =
      (args.filter (fun a => p a.timestamp)).map argReading := by
  induction args with
  | nil =>
    intro n p
    simp [rowsOf]
  | cons a rest ih =>
    intro n p
    simp only [rowsOf, List.filter_cons]
    by_cases hp : p a.timestamp = true
    · have hp' : p (argRow n a).timestamp = true := hp
      simp only [hp, hp', if_pos, List.map_cons, rowToReading_argRow]
      rw [ih (n + 1) p]
    · have hp' : ¬ p (argRow n a).timestamp = true := hp
      simp only [hp, hp', if_neg, ite_false]
      exact ih (n + 1) p

/-- Stability of the modelled `ORDER BY`: restricted to any one timestamp,
the sorted output of rows with pairwise-increasing ids is the input order. -/
theorem mergeSort_rowLe_filter_ts (L : List Row)
    (hpair : L.Pairwise (fun a b => a.id < b.id)) (T : Int) :
    (L.mergeSort rowLe).filter (fun r => decide (r.timestamp = T)) =
      L.filter (fun r => decide (r.timestamp = T)) := by
  have hperm : (L.mergeSort rowLe).Perm L := List.mergeSort_perm L rowLe
  have hS : (L.mergeSort rowLe).Pairwise (fun a b => rowLe a b = true) :=
    List.sorted_mergeSort rowLe_transitive rowLe_total_bool L
  have hAperm : ((L.mergeSort rowLe).filter
      (fun r => decide (r.timestamp = T))).Perm
      (L.filter (fun r => decide (r.timestamp = T))) :=
    hperm.filter (fun r => decide (r.timestamp = T))
  have hB : (L.filter (fun r => decide (r.timestamp = T))).Pairwise
      (fun a b => a.id < b.id) :=
    List.Pairwise.sublist (List.filter_sublist L) hpair
  have hAne : ((L.mergeSort rowLe).filter
      (fun r => decide (r.timestamp = T))).Pairwise
      (fun a b => a.id ≠ b.id) := by
    have hBne : (L.filter (fun r => decide (r.timestamp = T))).Pairwise
        (fun a b => a.id ≠ b.id) :=
      hB.imp (fun h => Nat.ne_of_lt h)
    exact (List.Perm.pairwise_iff (fun h => h.symm) hAperm).mpr hBne
  have hAsort : ((L.mergeSort rowLe).filter
      (fun r => decide (r.timestamp = T))).Pairwise
      (fun a b => rowLe a b = true) :=
    List.Pairwise.sublist (List.filter_sublist _) hS
  have hAT : ∀ r ∈ (L.mergeSort rowLe).filter
      (fun r => decide (r.timestamp = T)), r.timestamp = T := by
    intro r hr
    have := (List.mem_filter.mp hr).2
    simpa using this
  have hA : ((L.mergeSort rowLe).filter
      (fun r => decide (r.timestamp = T))).Pairwise
      (fun a b => a.id < b.id) := by
    refine List.Pairwise.imp_of_mem ?_ (hAsort.and hAne)
    intro a b ha hb hab
    obtain ⟨h1, h2⟩ := hab
    rw [rowLe_iff] at h1
    have hta := hAT a ha
    have htb := hAT b hb
    omega
  exact List.eq_of_perm_of_sorted hAperm hA hB

/-- C2: for every sequence of inserts on a fresh store (equal timestamps
allowed) and any bounds, `get_readings` succeeds, its output is
non-decreasing in timestamp, and, restricted to any one timestamp `T`, the
output lists exactly the matching inserts in insertion order. -/
theorem get_readings_ordered_stable (args : List InsertArgs) (db : Database)
    (fromB toB : Option Int) (h : freshDb.insertAll args = .ok db) :
    ∃ rs, db.get_readings fromB toB = .ok rs ∧
      rs.Pairwise (fun x y => x.timestamp ≤ y.timestamp) ∧
      ∀ T : Int, rs.filter (fun x => decide (x.timestamp = T)) =
        (args.filter (fun a =>
          decide ((fromB.getD i64Min ≤ a.timestamp ∧
            a.timestamp ≤ toB.getD i64Max) ∧ a.timestamp = T))).map
          argReading := by
  rw [insertAll_ok args freshDb rfl rfl] at h
  obtain rfl := Except.ok.inj h
  have hget := get_readings_ok (afterInserts freshDb args) fromB toB rfl rfl
  have hrw : (afterInserts freshDb args).rows = rowsOf 1 args := by
    simp [afterInserts, freshDb]
  rw [hrw] at hget
  have hpairF : ((rowsOf 1 args).filter (fun r =>
      decide (fromB.getD i64Min ≤ r.timestamp ∧
        r.timestamp ≤ toB.getD i64Max))).Pairwise
      (fun a b => a.id < b.id) :=
    List.Pairwise.sublist (List.filter_sublist _) (rowsOf_pairwise_id args 1)
  refine ⟨_, hget, ?_, ?_⟩
  · have hS := List.sorted_mergeSort rowLe_transitive rowLe_total_bool
      ((rowsOf 1 args).filter (fun r =>
        decide (fromB.getD i64Min ≤ r.timestamp ∧
          r.timestamp ≤ toB.getD i64Max)))
    refine List.pairwise_map.mpr (hS.imp ?_)
    intro a b hab
    rw [rowLe_iff] at hab
    show a.timestamp ≤ b.timestamp
    omega
  · intro T
    rw [List.filter_map]
    have hcomp : ((fun x : Reading => decide (x.timestamp = T)) ∘
        rowToReading) = (fun r : Row => decide (r.timestamp = T)) := rfl
    rw [hcomp]
    rw [mergeSort_rowLe_filter_ts _ hpairF T]
    rw [List.filter_filter]
    have hstep := rowsOf_filter_map args 1
      (fun ts => decide (ts = T) &&
        decide (fromB.getD i64Min ≤ ts ∧ ts ≤ toB.getD i64Max))
    rw [show (fun (r : Row) => decide (r.timestamp = T) &&
        decide (fromB.getD i64Min ≤ r.timestamp ∧
          r.timestamp ≤ toB.getD i64Max)) =
      (fun (r : Row) => (fun ts => decide (ts = T) &&
        decide (fromB.getD i64Min ≤ ts ∧ ts ≤ toB.getD i64Max))
          r.timestamp) from rfl]
    rw [hstep]
    congr 1
    apply List.filter_congr
    intro a _
    by_cases h1 : a.timestamp = T <;>
      by_cases h2 : fromB.getD i64Min ≤ a.timestamp ∧
        a.timestamp ≤ toB.getD i64Max <;>
      simp [h1, h2]

/-- Witness for C2 on a fresh store receiving three inserts, the first and
last sharing timestamp 200. -/
theorem get_readings_ordered_stable_witness :
    ∃ rs, sampleArgsDb.get_readings none none = .ok rs ∧
      rs.Pairwise (fun x y => x.timestamp ≤ y.timestamp) ∧
      ∀ T : Int, rs.filter (fun x => decide (x.timestamp = T)) =
        (sampleArgs.filter (fun a =>
          decide (((none : Option Int).getD i64Min ≤ a.timestamp ∧
            a.timestamp ≤ (none : Option Int).getD i64Max) ∧
            a.timestamp = T))).map argReading :=
  get_readings_ordered_stable sampleArgs sampleArgsDb none none (by decide)
